import Mathlib

/-!
Verification of the dorusu-js core codec (`src/lib/codec.js`) and the RPC
application registry, against the repository's natural-language specification.

Byte buffers are modelled as `List Nat` (each entry a byte value 0..255);
JavaScript strings as `List Char`; node-style error-first callbacks as
`Except JsError`.  All definitions below are transcribed from the source;
the registry, whose implementation file is not part of the provided sources,
is modelled from the specification and marked as such.
-/

namespace Dorusu

/-- Errors raised by the codec: the source distinguishes `RangeError`
from plain `Error` (see `decodeMessage` in codec.js). -/
inductive JsError
  | rangeError (msg : String)
  | error (msg : String)
deriving DecidableEq, Repr

/-- `MINIMUM_ENCODED_LENGTH` from codec.js line 140. -/
def MINIMUM_ENCODED_LENGTH : Nat := 5

/-- `buf.writeUInt32BE(n, 1, 4)`: the four big-endian bytes of `n`
(masked to 32 bits, as the node buffer write does). -/
def writeUInt32BE (n : Nat) : List Nat :=
  [n / 16777216 % 256, n / 65536 % 256, n / 256 % 256, n % 256]

/-- `buf.readUInt32BE(i, 4)`: big-endian 32-bit read at offset `i`. -/
def readUInt32BE (l : List Nat) (i : Nat) : Nat :=
  l.getD i 0 * 16777216 + l.getD (i + 1) 0 * 65536 +
    l.getD (i + 2) 0 * 256 + l.getD (i + 3) 0

/-- `encodeMessage` (codec.js lines 57-79) with no marshal callback: the
message buffer `p` is pushed into a `MsgHeaderStream`, whose `getBody`
(lines 333-357) prepends the 5-byte header: byte 0 is the compression
flag written as 0, bytes 1-4 are the accumulated size big-endian. -/
def encodeMessage (p : List Nat) : List Nat :=
  0 :: writeUInt32BE p.length ++ p

/-- `decodeMessage` (codec.js lines 156-188) with no unmarshal callback:
rejects buffers shorter than 5 with a `RangeError`; reads the compression
byte and the big-endian length; when compression is 0 the payload length
must equal the length field exactly. -/
def decodeMessage (encoded : List Nat) : Except JsError (List Nat) :=
  if encoded.length < MINIMUM_ENCODED_LENGTH then
    .error (.rangeError "Encoded message was smaller than 5")
  else
    let compression := encoded.getD 0 0
    let length := readUInt32BE encoded 1
    let payload := encoded.drop MINIMUM_ENCODED_LENGTH
    if compression == 0 && payload.length != length then
      .error (.error "Encoded message length is wrong")
    else
      .ok payload

/-- A raw frame `[c, len as u32 big-endian, payload]` with an arbitrary
compression byte and an arbitrary length field (not necessarily the
payload's true length). -/
def mkFrame (c len : Nat) (payload : List Nat) : List Nat :=
  c :: writeUInt32BE len ++ payload

lemma readUInt32BE_writeUInt32BE (c n : Nat) (p : List Nat)
    (h : n < 4294967296) :
    readUInt32BE (c :: writeUInt32BE n ++ p) 1 = n := by
  simp [readUInt32BE, writeUInt32BE]
  omega

lemma decodeMessage_mkFrame (c len : Nat) (p : List Nat)
    (h : len < 4294967296) :
    decodeMessage (mkFrame c len p) =
      if c == 0 && p.length != len then
        .error (.error "Encoded message length is wrong")
      else .ok p := by
  have hread := readUInt32BE_writeUInt32BE c len p h
  simp only [decodeMessage, mkFrame, MINIMUM_ENCODED_LENGTH] at *
  rw [hread]
  simp [writeUInt32BE]

/-- Claim C1: for every byte buffer `p` (of length representable in the
32-bit length field), encoding with `encodeMessage` produces the 5-byte
header `[0, |p| as u32 big-endian]` followed by `p`, and `decodeMessage`
of that encoding yields `p` again (identity marshal/unmarshal). -/
theorem encode_decode_roundtrip (p : List Nat) (h : p.length < 4294967296) :
    encodeMessage p = 0 :: writeUInt32BE p.length ++ p ∧
    decodeMessage (encodeMessage p) = .ok p := by
  refine ⟨rfl, ?_⟩
  have := decodeMessage_mkFrame 0 p.length p h
  simp [mkFrame] at this
  simpa [encodeMessage] using this

theorem encode_decode_roundtrip_witness :
    encodeMessage [1, 2, 3] = 0 :: writeUInt32BE 3 ++ [1, 2, 3] ∧
    decodeMessage (encodeMessage [1, 2, 3]) = .ok [1, 2, 3] :=
  encode_decode_roundtrip [1, 2, 3] (by decide)

/-- Claim C4: for a frame `[c, len as u32 big-endian, payload]`, when the
compression byte `c` is 0 decoding fails whenever `len` differs from the
payload length, and when `c` is non-zero the length check is bypassed:
decoding succeeds with the raw payload, no length-mismatch error. -/
theorem compression_gates_length_check (c len : Nat) (p : List Nat)
    (hc : c < 256) (hlen : len < 4294967296) :
    (c = 0 → len ≠ p.length →
      decodeMessage (mkFrame c len p) =
        .error (.error "Encoded message length is wrong")) ∧
    (c ≠ 0 → decodeMessage (mkFrame c len p) = .ok p) := by
  rw [decodeMessage_mkFrame c len p hlen]
  constructor
  · intro hc0 hne
    subst hc0
    simp [Ne.symm hne]
  · intro hc0
    simp [hc0]

theorem compression_gates_length_check_witness :
    decodeMessage (mkFrame 0 7 [9]) =
        .error (.error "Encoded message length is wrong") ∧
    decodeMessage (mkFrame 1 7 [9]) = .ok [9] :=
  ⟨(compression_gates_length_check 0 7 [9] (by decide) (by decide)).1
      rfl (by decide),
   (compression_gates_length_check 1 7 [9] (by decide) (by decide)).2
      (by decide)⟩

/-- Claim C5: decoding any buffer shorter than 5 bytes fails with a
`RangeError`, and the 5-byte all-zero buffer (compression 0, length 0)
decodes to the empty payload. -/
theorem decode_minimum_length :
    (∀ l : List Nat, l.length < 5 →
      decodeMessage l = .error (.rangeError "Encoded message was smaller than 5")) ∧
    decodeMessage [0, 0, 0, 0, 0] = .ok [] := by
  constructor
  · intro l hl
    simp [decodeMessage, MINIMUM_ENCODED_LENGTH, hl]
  · rfl

theorem decode_minimum_length_witness :
    decodeMessage [] = .error (.rangeError "Encoded message was smaller than 5") :=
  decode_minimum_length.1 [] (by decide)

/-- `DecodingStream._transform` (codec.js lines 234-271): append the chunk
to the internal buffer; with fewer than 5 buffered bytes, or fewer than
`5 + length` bytes, keep the buffer and emit nothing; otherwise slice out
the one payload, emit it, and keep the rest of the buffer.  The source has
no loop here: at most one message is emitted per `_transform` call. -/
def decTransform (buf chunk : List Nat) : List Nat × Option (List Nat) :=
  let b := buf ++ chunk
  if b.length < MINIMUM_ENCODED_LENGTH then (b, none)
  else
    let length := readUInt32BE b 1
    let payloadLength := length + MINIMUM_ENCODED_LENGTH
    if b.length < payloadLength then (b, none)
    else (b.drop payloadLength,
          some ((b.drop MINIMUM_ENCODED_LENGTH).take length))

/-- The observable behaviour of a `DecodingStream` (no unmarshal) fed the
given chunks in order and then ended: `_transform` on each chunk, then
`_flush` (codec.js lines 278-298), which passes any non-empty residual
buffer to `decodeMessage` and surfaces its error if it fails.  Returns the
emitted messages and the terminal error, if any. -/
def runDecode (chunks : List (List Nat)) :
    List (List Nat) × Option JsError :=
  let fin := chunks.foldl
    (fun (acc : List Nat × List (List Nat)) c =>
      let r := decTransform acc.1 c
      (r.1, acc.2 ++ (match r.2 with | some m => [m] | none => [])))
    ([], [])
  if fin.1.isEmpty then (fin.2, none)
  else
    match decodeMessage fin.1 with
    | .ok m => (fin.2 ++ [m], none)
    | .error e => (fin.2, some e)

/-- Claim C2 (failing part, evaluated on the code): a single chunk holding
the three encoded frames of three empty messages (15 zero bytes) is NOT
fully drained: `_transform` emits only the first message, and `_flush`
fails on the two leftover frames with a length-mismatch error, so the
stream does not yield the sequence of three messages.  The same three
frames fed as three frame-aligned chunks decode correctly. -/
theorem single_chunk_multi_frame_not_drained :
    runDecode [List.replicate 15 0] =
      ([[]], some (.error "Encoded message length is wrong")) ∧
    runDecode [List.replicate 15 0] ≠ ([[], [], []], none) ∧
    runDecode [List.replicate 5 0, List.replicate 5 0, List.replicate 5 0] =
      ([[], [], []], none) := by
  exact ⟨rfl, by decide, rfl⟩

/-- The `microsBySuffix` mapping literal (codec.js lines 363-370), in its
insertion order: hours, minutes, seconds, milliseconds, microseconds. -/
def microsBySuffix : List (Char × Nat) :=
  [('H', 3600000000), ('M', 60000000), ('S', 1000000), ('m', 1000), ('u', 1)]

/-- `maxInterval = Math.pow(10, 8) - 1` (codec.js line 371). -/
def maxInterval : Nat := 99999999

/-- One step of the unit-coarsening `switch` inside `microsToInterval`:
the divisor applied to the amount and the next suffix. -/
def coarsenStep : Char → Option (Nat × Char)
  | 'u' => some (1000, 'm')
  | 'm' => some (1000, 'S')
  | 'S' => some (60, 'M')
  | 'M' => some (60, 'H')
  | _ => none

/-- The `while (amt > maxInterval && s !== 'H')` loop of `microsToInterval`
(codec.js lines 385-404).  The suffix chain `u, m, S, M` reaches `H` in at
most four steps, so fuel 4 reproduces the loop exactly for the suffixes the
source iterates over. -/
def coarsenLoop : Nat → Nat → Char → Nat × Char
  | 0, amt, s => (amt, s)
  | fuel + 1, amt, s =>
    if amt > maxInterval ∧ s ≠ 'H' then
      match coarsenStep s with
      | some (d, s2) => coarsenLoop fuel (amt / d) s2
      | none => (amt, s)
    else (amt, s)

/-- `microsToInterval` (codec.js lines 380-418): iterate the suffixes in
insertion order; for the first one whose denominator divides `micros`
exactly, coarsen the amount while it exceeds `maxInterval`; return
`amt ++ suffix` if the final amount fits, otherwise keep trying; `none`
models the `RangeError` thrown when no suffix fits. -/
def microsToInterval (micros : Nat) : Option String :=
  microsBySuffix.findSome? fun p =>
    if micros % p.2 == 0 then
      let r := coarsenLoop 4 (micros / p.2) p.1
      if r.1 ≤ maxInterval then some (toString r.1 ++ String.singleton r.2)
      else none
    else none

/-- Claim C3 (counterexample to the claim as stated): the spec asserts
`microsToInterval(10^14) = "27H"`, but the source stops coarsening as soon
as the amount fits: 10^14 us = 10^8 s steps up once to 1666666 minutes,
which is already within `maxInterval`, so the result is `"1666666M"`. -/
theorem microsToInterval_not_27H :
    microsToInterval 100000000000000 ≠ some "27H" := by decide

/-- Claim C3 (amended): `microsToInterval` tries suffixes in the order
H, M, S, m, u, takes the first whose denominator divides the input
exactly, and coarsens (flooring) while the amount exceeds 99999999; the
scenario values are `1S`, `1H`, `1666666M` (not `27H`) and `1u`. -/
theorem microsToInterval_scenarios :
    microsToInterval 1000000 = some "1S" ∧
    microsToInterval 3600000000 = some "1H" ∧
    microsToInterval 100000000000000 = some "1666666M" ∧
    microsToInterval 1 = some "1u" := by
  refine ⟨?_, ?_, ?_, ?_⟩ <;> decide

/-- `\d` of the JavaScript regex: the characters 0-9. -/
def isDigitChar (c : Char) : Bool := 48 ≤ c.toNat && c.toNat ≤ 57

/-- The suffix alternation `(H|M|S|m|u|n)` of `intervalRx`. -/
def isSuffixChar (c : Char) : Bool :=
  c == 'H' || c == 'M' || c == 'S' || c == 'm' || c == 'u' || c == 'n'

/-- Matching `intervalRx = /^(\d+)(H|M|S|m|u|n)$/` (codec.js line 420):
anchored at both ends, so a string matches exactly when its last character
is one of the six suffixes and the rest is a non-empty run of digits;
the two capture groups are returned. -/
def intervalMatch (s : List Char) : Option (List Char × Char) :=
  match s.getLast? with
  | none => none
  | some c =>
    if !s.dropLast.isEmpty && s.dropLast.all isDigitChar && isSuffixChar c then
      some (s.dropLast, c)
    else none

/-- `parseInt(digits, 10)` on a run of decimal digits. -/
def parseDigits (ds : List Char) : Nat :=
  ds.foldl (fun acc c => acc * 10 + (c.toNat - 48)) 0

/-- `intervalToMicros` (codec.js lines 429-443): match against
`intervalRx` (a failure is a `RangeError`); parse the digits; the `n`
suffix is rewritten to `u` with the amount floor-divided by 1000; the
result is the suffix's entry in `microsBySuffix` times the amount. -/
def intervalToMicros (s : List Char) : Except JsError Nat :=
  match intervalMatch s with
  | none => .error (.rangeError "interval decode failed")
  | some (ds, suffix0) =>
    let amt0 := parseDigits ds
    let r := if suffix0 == 'n' then ('u', amt0 / 1000) else (suffix0, amt0)
    .ok ((microsBySuffix.lookup r.1).getD 0 * r.2)

/-- `isInterval` (codec.js lines 451-453): true iff `intervalRx` matches. -/
def isInterval (s : List Char) : Bool := (intervalMatch s).isSome

/-- Claim C6 (counterexample to the claim as stated): the regex imposes no
bound on the digits field, so the nine-digit value `999999999u` (above
99999999) is accepted by `isInterval` and decoded by `intervalToMicros`
without any out-of-range error. -/
theorem interval_accepts_nine_digits :
    isInterval "999999999u".toList = true ∧
    intervalToMicros "999999999u".toList = .ok 999999999 := by
  exact ⟨by decide, rfl⟩

/-- Claim C6 (amended): a string is accepted by `isInterval` (and hence by
`intervalToMicros`) exactly when it is a non-empty run of digits followed
by one suffix character; the source places no upper bound on the length of
the digits field or on its value. -/
lemma isInterval_concat (L : List Char) (b : Char) :
    isInterval (L ++ [b]) =
      (!L.isEmpty && L.all isDigitChar && isSuffixChar b) := by
  unfold isInterval intervalMatch
  simp only [List.getLast?_concat, List.dropLast_concat]
  by_cases hc : (!L.isEmpty && L.all isDigitChar && isSuffixChar b) = true <;>
    simp [hc]

theorem isInterval_characterization (s : List Char) :
    isInterval s = true ↔
      ∃ ds c, s = ds ++ [c] ∧ ds ≠ [] ∧
        ds.all isDigitChar = true ∧ isSuffixChar c = true := by
  rcases List.eq_nil_or_concat' s with hs | ⟨L, b, hs⟩
  · subst hs
    simp [isInterval, intervalMatch]
  · subst hs
    rw [isInterval_concat]
    constructor
    · intro h
      simp only [Bool.and_eq_true, Bool.not_eq_true', List.isEmpty_eq_false]
        at h
      exact ⟨L, b, rfl, h.1.1, h.1.2, h.2⟩
    · rintro ⟨ds, c, heq, hne, hall, hsuf⟩
      have hb : b = c := by
        have := congrArg List.getLast? heq
        simpa using this
      have hL : L = ds := by
        have := congrArg List.dropLast heq
        simpa using this
      subst hb; subst hL
      simp [hall, hsuf, hne]

lemma intervalMatch_concat (ds : List Char) (c : Char) (hne : ds ≠ [])
    (hall : ds.all isDigitChar = true) (hsuf : isSuffixChar c = true) :
    intervalMatch (ds ++ [c]) = some (ds, c) := by
  unfold intervalMatch
  simp only [List.getLast?_concat, List.dropLast_concat]
  simp [hall, hsuf, hne]

/-- Claim C7: on every string matching the interval grammar,
`intervalToMicros` multiplies the parsed integer by the suffix's entry in
`microsBySuffix` (H, M, S, m, u), except that the `n` suffix first
floor-divides the integer by 1000 (and then uses the `u` weight 1); in
particular `"500m"` decodes to 500000 and `"1000n"` to 1; every string
failing the grammar yields a `RangeError`. -/
theorem intervalToMicros_spec :
    (∀ ds c, ds ≠ [] → ds.all isDigitChar = true → isSuffixChar c = true →
      intervalToMicros (ds ++ [c]) =
        .ok (if c == 'n' then parseDigits ds / 1000
             else (microsBySuffix.lookup c).getD 0 * parseDigits ds)) ∧
    intervalToMicros "500m".toList = .ok 500000 ∧
    intervalToMicros "1000n".toList = .ok 1 ∧
    (∀ s, isInterval s = false →
      intervalToMicros s = .error (.rangeError "interval decode failed")) := by
  refine ⟨?_, rfl, rfl, ?_⟩
  · intro ds c hne hall hsuf
    simp only [intervalToMicros, intervalMatch_concat ds c hne hall hsuf]
    by_cases hc : (c == 'n') = true
    · simp [hc, microsBySuffix, List.lookup]
    · simp only [Bool.not_eq_true] at hc
      simp [hc]
  · intro s h
    have hm : intervalMatch s = none := by
      rcases hm : intervalMatch s with _ | v
      · rfl
      · simp [isInterval, hm] at h
    simp [intervalToMicros, hm]

theorem intervalToMicros_spec_witness :
    intervalToMicros (['7'] ++ ['S']) =
      .ok (if ('S' == 'n') then parseDigits ['7'] / 1000
           else (microsBySuffix.lookup 'S').getD 0 * parseDigits ['7']) ∧
    intervalToMicros ['x'] = .error (.rangeError "interval decode failed") :=
  ⟨intervalToMicros_spec.1 ['7'] 'S' (by decide) (by decide) (by decide),
   intervalToMicros_spec.2.2.2 ['x'] (by decide)⟩

/-- UTF-8 encoding of one character, as `new Buffer(string)` performs. -/
def utf8Char (c : Char) : List Nat :=
  let n := c.toNat
  if n < 128 then [n]
  else if n < 2048 then [192 + n / 64, 128 + n % 64]
  else if n < 65536 then
    [224 + n / 4096, 128 + n / 64 % 64, 128 + n % 64]
  else
    [240 + n / 262144, 128 + n / 4096 % 64, 128 + n / 64 % 64, 128 + n % 64]

/-- UTF-8 encoding of a string, as `new Buffer(value)` performs. -/
def utf8 (s : List Char) : List Nat := (s.map utf8Char).flatten

/-- The base64 alphabet used by `Buffer.toString(base64)`. -/
def b64Char (n : Nat) : Char :=
  ("ABCDEFGHIJKLMNOPQRSTUVWXYZabcdefghijklmnopqrstuvwxyz0123456789+/".toList).getD
    n 'A'

/-- Standard base64 of a byte list, as `Buffer.toString(base64)` performs:
3-byte groups become 4 alphabet characters, with `=` padding. -/
def base64Encode : List Nat → List Char
  | [] => []
  | [a] => [b64Char (a / 4), b64Char (a % 4 * 16), '=', '=']
  | [a, b] => [b64Char (a / 4), b64Char (a % 4 * 16 + b / 16),
               b64Char (b % 16 * 4), '=']
  | a :: b :: c :: rest =>
    b64Char (a / 4) :: b64Char (a % 4 * 16 + b / 16) ::
      b64Char (b % 16 * 4 + c / 64) :: b64Char (c % 64) :: base64Encode rest

/-- `isAscii = /^[\x00-\x7F]+$/` (codec.js line 455): at least one
character, all with codepoints at most 127.  Note the `+`: the empty
string does NOT match. -/
def asciiTest (s : List Char) : Bool :=
  !s.isEmpty && s.all (fun c => c.toNat ≤ 127)

/-- An element of an array-valued metadata entry: a string or a buffer. -/
inductive MetaElem
  | str (s : List Char)
  | buf (b : List Nat)
deriving DecidableEq, Repr

/-- A metadata value: a string, a buffer, or an array of elements. -/
inductive MetaValue
  | str (s : List Char)
  | buf (b : List Nat)
  | arr (es : List MetaElem)
deriving DecidableEq, Repr

/-- The `needsb64` test inside the array branch of `removeBinValues`:
a `Buffer` element, or a string element failing `isAscii`. -/
def needsB64 : MetaElem → Bool
  | .buf _ => true
  | .str s => !asciiTest s

/-- `new Buffer(v).toString(base64)` applied to an array element. -/
def elemToB64 : MetaElem → MetaElem
  | .buf b => .str (base64Encode b)
  | .str s => .str (base64Encode (utf8 s))

/-- `removeBinValues` (codec.js lines 469-487): an array value is base64
encoded elementwise, with the key suffixed `-bin`, when any element needs
it; a buffer value is always base64 encoded with the key suffixed; a
string value is base64 encoded with the key suffixed exactly when it fails
the `isAscii` regex; otherwise the pair is returned unchanged. -/
def removeBinValues (key : List Char) (value : MetaValue) :
    List Char × MetaValue :=
  match value with
  | .arr es =>
    if es.foldl (fun acc e => acc || needsB64 e) false then
      (key ++ "-bin".toList, .arr (es.map elemToB64))
    else (key, value)
  | .buf b => (key ++ "-bin".toList, .str (base64Encode b))
  | .str s =>
    if !asciiTest s then (key ++ "-bin".toList, .str (base64Encode (utf8 s)))
    else (key, value)

/-- Claim C8 (counterexample to the claim as stated): the empty string has
all (zero) characters ASCII, yet `removeBinValues` does not return it
unchanged, because the `isAscii` regex requires at least one character. -/
theorem removeBinValues_empty_not_identity :
    removeBinValues "a".toList (.str []) ≠ ("a".toList, .str []) := by
  decide

/-- Claim C8 (amended): for every key and every NON-EMPTY string value all
of whose characters are ASCII (codepoints 0-127), `removeBinValues`
returns the pair unchanged. -/
theorem removeBinValues_ascii_identity (k s : List Char) (hne : s ≠ [])
    (hascii : ∀ c ∈ s, c.toNat ≤ 127) :
    removeBinValues k (.str s) = (k, .str s) := by
  have h : asciiTest s = true := by
    simp [asciiTest, hne, List.all_eq_true]
    exact fun c hc => by simpa using hascii c hc
  simp [removeBinValues, h]

theorem removeBinValues_ascii_identity_witness :
    removeBinValues "x-auth".toList (.str "ok".toList) =
      ("x-auth".toList, .str "ok".toList) :=
  removeBinValues_ascii_identity "x-auth".toList "ok".toList (by decide)
    (by decide)

/-- Claim C10: for every key `k`, `removeBinValues k ""` classifies the
empty string as non-ASCII (the regex needs one character), so it returns
the key suffixed with `-bin` and the (empty) base64 encoding. -/
theorem removeBinValues_empty_string (k : List Char) :
    removeBinValues k (.str []) = (k ++ "-bin".toList, .str []) := by
  simp [removeBinValues, asciiTest, utf8, base64Encode]

/-- Modelled from the spec: the method descriptor of §3 (the registry
implementation `lib/app.js` is not among the provided sources; only its
test is).  The optional marshal/unmarshal callbacks play no role in the
completeness claim, so only the name is carried. -/
structure Method where
  name : String
deriving DecidableEq, Repr

/-- Modelled from the spec: the service descriptor of §3, a name and an
ordered sequence of methods. -/
structure Service where
  name : String
  methods : List Method
deriving DecidableEq, Repr

/-- Modelled from the spec: the route string `"/" + service + "/" + method`. -/
def routeOf (svcName methodName : String) : String :=
  "/" ++ svcName ++ "/" ++ methodName

/-- Modelled from the spec: the registry state of §4.4 — the names of the
added services, the known routes in service-insertion then
method-insertion order, and the routes that have been given a handler, in
registration order. -/
structure RpcApp where
  svcNames : List String
  routes : List String
  handlers : List String
deriving DecidableEq, Repr

/-- Modelled from the spec: a freshly constructed `RpcApp` with no
services. -/
def newRpcApp : RpcApp := ⟨[], [], []⟩

/-- Modelled from the spec: `addService` of §4.4 — fails when the service
name is already present, otherwise appends every `/service/method` route
with no handler. -/
def addService (app : RpcApp) (svc : Service) : Except String RpcApp :=
  if app.svcNames.contains svc.name then .error "service already added"
  else
    .ok { svcNames := app.svcNames ++ [svc.name]
        , routes :=
            app.routes ++ svc.methods.map (fun m => routeOf svc.name m.name)
        , handlers := app.handlers }

/-- Modelled from the spec: `register` of §4.4 — fails when the route is
unknown or already has a handler, otherwise records the handler. -/
def register (app : RpcApp) (route : String) : Except String RpcApp :=
  if !app.routes.contains route then .error "unknown route"
  else if app.handlers.contains route then .error "already registered"
  else .ok { app with handlers := app.handlers ++ [route] }

/-- Modelled from the spec: `missingRoutes` of §4.4 — every known route
with no handler, in declared order. -/
def missingRoutes (app : RpcApp) : List String :=
  app.routes.filter (fun r => !app.handlers.contains r)

/-- Modelled from the spec: `isComplete` of §4.4 — true iff
`missingRoutes` is empty. -/
def isComplete (app : RpcApp) : Bool := (missingRoutes app).isEmpty

/-- Modelled from the spec: adding a list of services in order, stopping
at the first failure (as the `RpcApp` constructor does with its service
arguments). -/
def addServices : RpcApp → List Service → Except String RpcApp
  | app, [] => .ok app
  | app, s :: ss =>
    match addService app s with
    | .error e => .error e
    | .ok app2 => addServices app2 ss

/-- Modelled from the spec: registering a handler for each route of a
list in order, stopping at the first failure. -/
def registerAll : RpcApp → List String → Except String RpcApp
  | app, [] => .ok app
  | app, r :: rs =>
    match register app r with
    | .error e => .error e
    | .ok app2 => registerAll app2 rs

lemma addServices_handlers (svcs : List Service) :
    ∀ app app1 : RpcApp, addServices app svcs = .ok app1 →
      app1.handlers = app.handlers := by
  induction svcs with
  | nil =>
    intro app app1 h
    cases h
    rfl
  | cons s ss ih =>
    intro app app1 h
    unfold addServices at h
    unfold addService at h
    by_cases hc : s.name ∈ app.svcNames
    · simp [hc] at h
    · simp [hc] at h
      have hres := ih _ app1 h
      exact hres

lemma registerAll_routes_handlers (rs : List String) :
    ∀ app app2 : RpcApp, registerAll app rs = .ok app2 →
      app2.routes = app.routes ∧ app2.handlers = app.handlers ++ rs := by
  induction rs with
  | nil =>
    intro app app2 h
    cases h
    exact ⟨rfl, by simp⟩
  | cons r rs ih =>
    intro app app2 h
    unfold registerAll at h
    unfold register at h
    by_cases hc1 : r ∈ app.routes
    · by_cases hc2 : r ∈ app.handlers
      · simp [hc1, hc2] at h
      · simp [hc1, hc2] at h
        obtain ⟨h1, h2⟩ := ih _ app2 h
        exact ⟨h1, by simpa using h2⟩
    · simp [hc1] at h

/-- Claim C9: after adding services `svcs` and successfully registering
handlers for the routes `R`, `isComplete` is true iff `R` covers every
known route, and `missingRoutes` is exactly the complement of `R` among
the known routes, in declared (service-insertion then method-insertion)
order. -/
theorem registry_completeness (svcs : List Service) (R : List String)
    (app1 app2 : RpcApp)
    (h1 : addServices newRpcApp svcs = .ok app1)
    (h2 : registerAll app1 R = .ok app2) :
    (isComplete app2 = true ↔ ∀ r ∈ app1.routes, r ∈ R) ∧
    missingRoutes app2 = app1.routes.filter (fun r => !R.contains r) := by
  have hh1 : app1.handlers = [] := addServices_handlers svcs newRpcApp app1 h1
  obtain ⟨hr, hh⟩ := registerAll_routes_handlers R app1 app2 h2
  rw [hh1] at hh
  simp only [List.nil_append] at hh
  have hmiss : missingRoutes app2 = app1.routes.filter (fun r => !R.contains r) := by
    simp [missingRoutes, hr, hh]
  refine ⟨?_, hmiss⟩
  rw [isComplete, hmiss, List.isEmpty_iff, List.filter_eq_nil_iff]
  constructor <;> intro h r hrr <;> have hx := h r hrr <;> simpa using hx

/-- The registry of the repository's test: service `test` with method
`do_reverse` and service `basic` with method `noop`. -/
def appWithServices : RpcApp :=
  ⟨["test", "basic"], ["/test/do_reverse", "/basic/noop"], []⟩

/-- `appWithServices` after registering handlers for both routes. -/
def appRegistered : RpcApp :=
  ⟨["test", "basic"], ["/test/do_reverse", "/basic/noop"],
    ["/basic/noop", "/test/do_reverse"]⟩

theorem registry_completeness_witness :
    (isComplete appRegistered = true ↔
      ∀ r ∈ appWithServices.routes,
        r ∈ ["/basic/noop", "/test/do_reverse"]) ∧
    missingRoutes appRegistered =
      appWithServices.routes.filter
        (fun r => !(["/basic/noop", "/test/do_reverse"].contains r)) :=
  registry_completeness
    [⟨"test", [⟨"do_reverse"⟩]⟩, ⟨"basic", [⟨"noop"⟩]⟩]
    ["/basic/noop", "/test/do_reverse"] appWithServices appRegistered
    rfl rfl

end Dorusu
